import Mathlib

/-
Verification development for the Storyroot note-taking application
(src/Storyroot.js), focused on the persistent text-highlight subsystem
and the editor/preview synchronization model.

Text is modelled as `List Char`; character offsets are `Nat` (JS offsets
into `content` are always non-negative, being produced by
`doc.indexFromPos`).  JS `undefined`/missing `note.highlights` is
modelled as `Option.none`; a present (possibly empty) array as `some`.
The external collaborators (CodeMirror editing surface, marked +
DOMPurify markdown pipeline, IndexedDB persistence) are modelled at
their interfaces: persistence as an id log, the markdown pipeline as
function parameters, and the self-adjusting range primitive from the
spec's description of the Editing Surface collaborator.
-/

namespace Storyroot

/-- A persisted highlight span, as created by `applyHighlight`
(src/Storyroot.js line 1292):
`{ from: fromIndex, to: toIndex, text: rawText, previewText: renderedText, color }`.
`from`/`to` are renamed `fromIdx`/`toIdx` (`from` is reserved in Lean). -/
structure Span where
  fromIdx : Nat
  toIdx : Nat
  text : List Char
  previewText : List Char
  color : String
deriving Repr, DecidableEq

/-- The parts of a note record relevant to the highlight subsystem:
`{ id, content, highlights }`.  `highlights = none` models a note whose
`highlights` field is absent (JS `undefined`). -/
structure Note where
  id : Nat
  content : List Char
  highlights : Option (List Span)
deriving Repr, DecidableEq

/-- One entry of the global `activeHighlightMarkers` array:
`{ marker, highlight }`.  The CodeMirror marker is modelled by the value
`marker.find()` would currently report (`none` = cleared), and the JS
object reference `highlight` is modelled as the index of the referenced
span in the owning note's `highlights` array at marker-build time. -/
structure MarkerEntry where
  range : Option (Nat × Nat)
  idx : Nat
deriving Repr, DecidableEq

/-- The three editor view modes of `switchEditorTab`. -/
inductive EditMode
  | edit
  | preview
  | split
deriving Repr, DecidableEq

/-- External collaborators (markdown pipeline), passed as parameters:
`m2pt` models `markdownToPlainText` (marked.parse + DOMPurify + textContent),
`render` models the markdown-to-preview-text rendering performed by
`updatePreview` (the `innerText` of the rendered, sanitized HTML). -/
structure Ext where
  m2pt : List Char → List Char
  render : List Char → List Char

/-- The module-level mutable state of src/Storyroot.js that the
highlight and mode-controller claims depend on. -/
structure HLState where
  editorPresent : Bool
  editorContent : List Char
  currentNoteId : Option Nat
  notes : List Note
  activeHighlightMarkers : List MarkerEntry
  persistedIds : List Nat
  autoSave : Bool
  hasUnsavedChanges : Bool
  openTabs : List Nat
  currentEditMode : EditMode
  previewEditing : Bool
  previewSyncPending : Bool
  previewDomText : List Char
deriving Repr, DecidableEq

/-- `notes.find(n => n.id === id)`. -/
def findNote (notes : List Note) (id : Nat) : Option Note :=
  notes.find? (fun n => n.id == id)

/-- In-place mutation of the note object found by id (JS aliasing:
the object inside the `notes` array is mutated directly). -/
def updateNote (notes : List Note) (id : Nat) (f : Note → Note) : List Note :=
  notes.map (fun n => if n.id == id then f n else n)

/-- Replace the element at index `i` by `f` applied to it (no-op when
out of range); models in-place mutation of one array element. -/
def modifyAt (l : List α) (i : Nat) (f : α → α) : List α :=
  match l, i with
  | [], _ => []
  | a :: t, 0 => f a :: t
  | a :: t, j + 1 => a :: modifyAt t j f

/-- `content.slice(from, to)` / `doc.getSelection()` for a selection
given by absolute offsets. -/
def sliceOf (content : List Char) (f t : Nat) : List Char :=
  (content.drop f).take (t - f)

/-- The marker-building loop body of `applyHighlightMarkers`
(src/Storyroot.js lines 1351-1367): for each span, skip it when
`h.from >= contentLength || h.to > contentLength || h.from >= h.to`,
otherwise `doc.markText` a fresh marker at the stored offsets and push
`{ marker, highlight: h }`.  `i` is the index of the head span. -/
def buildMarkers (len : Nat) : Nat → List Span → List MarkerEntry
  | _, [] => []
  | i, h :: t =>
    if len ≤ h.fromIdx || len < h.toIdx || h.toIdx ≤ h.fromIdx then
      buildMarkers len (i + 1) t
    else
      { range := some (h.fromIdx, h.toIdx), idx := i } :: buildMarkers len (i + 1) t

/-- `applyHighlightMarkers(note)` (src/Storyroot.js lines 1339-1368):
returns early keeping the old markers when there is no editor;
otherwise clears `activeHighlightMarkers` and rebuilds one marker per
in-bounds span (`contentLength = doc.getValue().length`).  A missing or
empty `highlights` array leaves the cleared (empty) marker set. -/
def applyHighlightMarkers (editorPresent : Bool) (note : Note) (contentLength : Nat)
    (oldMarkers : List MarkerEntry) : List MarkerEntry :=
  if editorPresent = false then oldMarkers
  else
    match note.highlights with
    | none => []
    | some hs => buildMarkers contentLength 0 hs

/-- One step of the `activeHighlightMarkers.forEach` loop in
`syncHighlightPositionsFromMarkers`: if `marker.find()` reports a live
range, overwrite the referenced highlight object's `from`/`to`. -/
def syncOne (hs : List Span) (m : MarkerEntry) : List Span :=
  match m.range with
  | none => hs
  | some (f, t) => modifyAt hs m.idx (fun h => { h with fromIdx := f, toIdx := t })

/-- `syncHighlightPositionsFromMarkers(note)` (src/Storyroot.js lines
1372-1382): no-op when there is no editor or the note has no
`highlights` array; otherwise writes each live marker's current range
back into its highlight object's `from`/`to`. -/
def syncHighlightPositionsFromMarkers (editorPresent : Bool)
    (markers : List MarkerEntry) (note : Note) : Note :=
  if editorPresent = false then note
  else
    match note.highlights with
    | none => note
    | some hs => { note with highlights := some (markers.foldl syncOne hs) }

/-- `updatePreview()` (src/Storyroot.js lines 1130-1169) restricted to
its effect on the preview pane's text: returns unchanged in `edit` mode
or while the user is actively typing in the preview; otherwise rebuilds
the preview DOM from the editor content (wiki-link/tag substitution,
marked.parse, DOMPurify collapsed into `ext.render`; the subsequent
highlight wrapping does not change the preview's text content). -/
def updatePreview (ext : Ext) (st : HLState) : HLState :=
  if st.currentEditMode = .edit then st
  else if st.previewEditing then st
  else { st with previewDomText := ext.render st.editorContent }

/-- Observable outcome of `applyHighlight` (which of its early returns
fired; `emptySelection` is the `showToast('Select text to highlight')`
branch). -/
inductive ApplyOutcome
  | noSession
  | emptySelection
  | noteMissing
  | applied
deriving Repr, DecidableEq

/-- `applyHighlight(color)` (src/Storyroot.js lines 1264-1298).  The
cursor selection is given by absolute offsets `selFrom`/`selTo`
(`doc.indexFromPos` of the two cursor positions; the JS emptiness test
compares the two positions, which coincide exactly when the offsets
do).  `rawText = doc.getSelection()` is the selected slice of the
editor content and `renderedText = markdownToPlainText(rawText)`. -/
def applyHighlight (ext : Ext) (st : HLState) (selFrom selTo : Nat) (color : String) :
    HLState × ApplyOutcome :=
  if st.editorPresent = false then (st, .noSession)
  else
    match st.currentNoteId with
    | none => (st, .noSession)
    | some nid =>
      if selFrom = selTo then (st, .emptySelection)
      else
        match findNote st.notes nid with
        | none => (st, .noteMissing)
        | some note =>
          let hs := note.highlights.getD []
          let rawText := sliceOf st.editorContent selFrom selTo
          let renderedText := ext.m2pt rawText
          let survivors := hs.filter (fun h =>
            decide (h.toIdx ≤ selFrom) || decide (selTo ≤ h.fromIdx))
          let newSpan : Span :=
            { fromIdx := selFrom, toIdx := selTo, text := rawText,
              previewText := renderedText, color := color }
          let note' := { note with highlights := some (survivors ++ [newSpan]) }
          let st₁ := { st with
            notes := updateNote st.notes nid (fun _ => note'),
            persistedIds := st.persistedIds ++ [nid] }
          let st₂ := { st₁ with
            activeHighlightMarkers :=
              applyHighlightMarkers st₁.editorPresent note'
                st₁.editorContent.length st₁.activeHighlightMarkers }
          let st₃ := updatePreview ext st₂
          ({ st₃ with hasUnsavedChanges := true }, .applied)

/-- Observable outcome of `removeHighlight`. -/
inductive RemoveOutcome
  | noSession
  | noHighlights
  | removed
deriving Repr, DecidableEq

/-- `removeHighlight()` (src/Storyroot.js lines 1309-1337): early
return without editor or open note, or when the note lacks a
`highlights` array; otherwise syncs live marker positions first, then
filters by cursor containment (point selection) or by interval overlap
(range selection), persists and rebuilds markers. -/
def removeHighlight (ext : Ext) (st : HLState) (selFrom selTo : Nat) :
    HLState × RemoveOutcome :=
  if st.editorPresent = false then (st, .noSession)
  else
    match st.currentNoteId with
    | none => (st, .noSession)
    | some nid =>
      match findNote st.notes nid with
      | none => (st, .noHighlights)
      | some note =>
        match note.highlights with
        | none => (st, .noHighlights)
        | some _ =>
          let note₁ := syncHighlightPositionsFromMarkers st.editorPresent
            st.activeHighlightMarkers note
          let hs := note₁.highlights.getD []
          let hs' :=
            if selFrom = selTo then
              hs.filter (fun h =>
                !(decide (h.fromIdx ≤ selFrom) && decide (selFrom ≤ h.toIdx)))
            else
              hs.filter (fun h =>
                decide (h.toIdx ≤ selFrom) || decide (selTo ≤ h.fromIdx))
          let note₂ := { note₁ with highlights := some hs' }
          let st₁ := { st with
            notes := updateNote st.notes nid (fun _ => note₂),
            persistedIds := st.persistedIds ++ [nid] }
          let st₂ := { st₁ with
            activeHighlightMarkers :=
              applyHighlightMarkers st₁.editorPresent note₂
                st₁.editorContent.length st₁.activeHighlightMarkers }
          let st₃ := updatePreview ext st₂
          ({ st₃ with hasUnsavedChanges := true }, .removed)

/-- Modelled from the spec: an edit of the editing surface's document.
The spec's Editing Surface collaborator (section 6) exposes text
replacement and change notification; edits are insertions and
deletions at absolute offsets. -/
inductive Edit
  | insert (pos : Nat) (s : List Char)
  | delete (pos : Nat) (len : Nat)
deriving Repr, DecidableEq

/-- Modelled from the spec: the effect of an edit on the document text. -/
def applyEdit (content : List Char) : Edit → List Char
  | .insert p s => content.take p ++ s ++ content.drop p
  | .delete p k => content.take p ++ content.drop (p + k)

/-- Modelled from the spec: the self-adjusting range primitive of the
Editing Surface collaborator
(`handle.currentRange() -> (from, to) | cleared`), per the spec's
design note: on every content mutation, shift any boundary after the
mutation point by the length delta, clamping/dropping ranges whose
interior is fully deleted.  Markers are created with
`inclusiveLeft: false, inclusiveRight: false`, so text inserted exactly
at a boundary stays outside the range, and a range whose text is
entirely consumed reports cleared.  `clampAfterDelete` is the boundary
adjustment for a deletion of `k` characters at offset `p`. -/
def clampAfterDelete (p k b : Nat) : Nat :=
  if b ≤ p then b else max p (b - k)

/-- Modelled from the spec: range adjustment under one edit (see
`clampAfterDelete` above for the deletion case). -/
def adjustRange : Edit → Nat × Nat → Option (Nat × Nat)
  | .insert p s, (f, t) =>
    some (if p ≤ f then f + s.length else f, if p < t then t + s.length else t)
  | .delete p k, (f, t) =>
    if clampAfterDelete p k f < clampAfterDelete p k t then
      some (clampAfterDelete p k f, clampAfterDelete p k t)
    else none

/-- Modelled from the spec: one marker entry after an edit (a cleared
marker stays cleared). -/
def adjustMarker (e : Edit) (m : MarkerEntry) : MarkerEntry :=
  { m with range := m.range.bind (adjustRange e) }

/-- Modelled from the spec: an edit applied to the whole session state
(document text plus every live marker; nothing else changes). -/
def applyEditS (st : HLState) (e : Edit) : HLState :=
  { st with
    editorContent := applyEdit st.editorContent e,
    activeHighlightMarkers := st.activeHighlightMarkers.map (adjustMarker e) }

/-- An edit is well formed for a document of length `len` when it acts
inside the document. -/
def editWF (len : Nat) : Edit → Prop
  | .insert p _ => p ≤ len
  | .delete p k => p + k ≤ len

/-- Document length after an edit. -/
def newLen (len : Nat) : Edit → Nat
  | .insert _ s => len + s.length
  | .delete _ k => len - k

/-- A list of edits, each well formed for the evolving document. -/
def editsOK : Nat → List Edit → Prop
  | _, [] => True
  | len, e :: es => editWF len e ∧ editsOK (newLen len e) es

/-- A marker range is consistent with a document of length `len`. -/
def rangeOK (len : Nat) (r : Nat × Nat) : Prop :=
  r.1 < r.2 ∧ r.2 ≤ len

/-- A node of the rendered preview DOM: a text node, a `<mark>` element
injected by `highlightTextInContainer` (carrying its inline background
color), or any other element. -/
inductive PNode
  | text (s : List Char)
  | mark (color : String) (children : List PNode)
  | elem (tag : String) (children : List PNode)

/-- First index at which `needle` occurs in `hay` as a contiguous
sublist (`String.prototype.indexOf`; an empty needle matches at 0). -/
def findSub (needle : List Char) : List Char → Option Nat
  | [] => if needle.isEmpty then some 0 else none
  | c :: t =>
    if needle.isPrefixOf (c :: t) then some 0
    else (findSub needle t).map (· + 1)

/-- The per-text-node body of `highlightTextInContainer`
(src/Storyroot.js lines 1428-1448): at the first occurrence of
`searchText` split the node into `[before, mark(searchText), after]`,
omitting empty `before`/`after` pieces (JS truthiness of the empty
string); a node without an occurrence is left alone. -/
def wrapText (needle : List Char) (color : String) (s : List Char) : List PNode :=
  match findSub needle s with
  | none => [.text s]
  | some i =>
    let before := s.take i
    let after := s.drop (i + needle.length)
    (if before.isEmpty then [] else [.text before]) ++
      [.mark color [.text needle]] ++
      (if after.isEmpty then [] else [.text after])

/-- `highlightTextInContainer(container, searchText, color)`
(src/Storyroot.js lines 1419-1449).  The JS collects every text node of
the container into a snapshot list via a tree walker, then replaces each
snapshot node containing `searchText` by its split-and-wrapped pieces;
the pieces are fresh nodes not in the snapshot and no other snapshot
node is affected, so the loop is exactly an independent transformation
of every text node of the tree in document order. -/
def highlightTextInContainer (needle : List Char) (color : String) :
    List PNode → List PNode
  | [] => []
  | .text s :: ns => wrapText needle color s ++ highlightTextInContainer needle color ns
  | .mark c cs :: ns =>
    .mark c (highlightTextInContainer needle color cs) ::
      highlightTextInContainer needle color ns
  | .elem tag cs :: ns =>
    .elem tag (highlightTextInContainer needle color cs) ::
      highlightTextInContainer needle color ns

/-- `String.prototype.trim` on the character-list model. -/
def trimChars (s : List Char) : List Char :=
  ((s.dropWhile Char.isWhitespace).reverse.dropWhile Char.isWhitespace).reverse

/-- The `matchText` computation of `applyHighlightsToPreview`
(src/Storyroot.js lines 1404-1409): `previewText.trim()` when
`previewText` is non-empty with non-empty trim, else
`markdownToPlainText(text).trim()` when `text` is non-empty, else
empty. -/
def matchTextOf (m2pt : List Char → List Char) (h : Span) : List Char :=
  if !h.previewText.isEmpty && !(trimChars h.previewText).isEmpty then
    trimChars h.previewText
  else if !h.text.isEmpty then trimChars (m2pt h.text)
  else []

/-- Insertion step of a stable sort by `key`, descending: `x` passes
`y` only when `y`'s key is strictly smaller, so equal keys keep their
original relative order (JS `Array.prototype.sort` is stable). -/
def insertDesc (key : α → Nat) (x : α) : List α → List α
  | [] => [x]
  | y :: ys => if key y < key x then x :: y :: ys else y :: insertDesc key x ys

/-- Stable sort, descending by `key`: models
`.sort((a, b) => b.matchText.length - a.matchText.length)`. -/
def sortDesc (key : α → Nat) : List α → List α
  | [] => []
  | x :: xs => insertDesc key x (sortDesc key xs)

/-- `applyHighlightsToPreview(container, highlights)` (src/Storyroot.js
lines 1400-1416): compute each span's `matchText`, drop empty ones,
sort by `matchText` length descending, then run
`highlightTextInContainer` once per remaining span in that order. -/
def applyHighlightsToPreview (m2pt : List Char → List Char)
    (container : List PNode) (highlights : Option (List Span)) : List PNode :=
  match highlights with
  | none => container
  | some hs =>
    if hs.isEmpty then container
    else
      let ms := (hs.map (fun h => (matchTextOf m2pt h, h.color))).filter
        (fun p => 0 < p.1.length)
      let sorted := sortDesc (fun p => p.1.length) ms
      sorted.foldl (fun c p => highlightTextInContainer p.1 p.2 c) container

/-- Concatenated text content of a preview forest (document order). -/
def textContentL : List PNode → List Char
  | [] => []
  | .text s :: ns => s ++ textContentL ns
  | .mark _ cs :: ns => textContentL cs ++ textContentL ns
  | .elem _ cs :: ns => textContentL cs ++ textContentL ns

/-- Every `<mark>` element of a preview forest, in document order, as
(color, text content) pairs. -/
def marksL : List PNode → List (String × List Char)
  | [] => []
  | .text _ :: ns => marksL ns
  | .mark c cs :: ns => (c, textContentL cs) :: (marksL cs ++ marksL ns)
  | .elem _ cs :: ns => marksL cs ++ marksL ns

/-- Number of text nodes of the forest containing `needle` as a
substring. -/
def hitCount (needle : List Char) : List PNode → Nat
  | [] => 0
  | .text s :: ns =>
    (if (findSub needle s).isSome then 1 else 0) + hitCount needle ns
  | .mark _ cs :: ns => hitCount needle cs + hitCount needle ns
  | .elem _ cs :: ns => hitCount needle cs + hitCount needle ns

/-- `_syncPreviewToEditor()` (src/Storyroot.js lines 1197-1209): no-op
without an editor; otherwise replaces the editor content with the
preview pane's plain text and marks unsaved changes.  Replacing the
whole document clears every live marker (CodeMirror `setValue`). -/
def syncPreviewToEditor (st : HLState) : HLState :=
  if st.editorPresent = false then st
  else
    { st with
      editorContent := st.previewDomText,
      activeHighlightMarkers :=
        st.activeHighlightMarkers.map (fun m => { m with range := none }),
      hasUnsavedChanges := true }

/-- `switchEditorTab(mode)` (src/Storyroot.js lines 1970-2065)
restricted to its state effects: sets `currentEditMode` first, then
per target mode — `edit`: flush the pending preview-to-source sync
(only when `_previewEditing` and a debounce timer is pending), then
clear `_previewEditing`; `preview`: clear `_previewEditing` and
re-render the preview; `split`: clear `_previewEditing` and re-render
the preview (no flush, and the pending timer is not cancelled). -/
def switchEditorTab (ext : Ext) (st : HLState) (mode : EditMode) : HLState :=
  let st0 := { st with currentEditMode := mode }
  match mode with
  | .edit =>
    let st1 :=
      if st0.previewEditing && st0.previewSyncPending then
        { syncPreviewToEditor st0 with previewSyncPending := false }
      else st0
    { st1 with previewEditing := false }
  | .preview =>
    updatePreview ext { st0 with previewEditing := false }
  | .split =>
    updatePreview ext { st0 with previewEditing := false }

/-- Trace events recording which persistence/reconciliation functions
a tab operation invokes, and in which order. -/
inductive Ev
  | reconciled (noteId : Nat)
  | persisted (noteId : Nat)
  | opened (noteId : Nat)
deriving Repr, DecidableEq

/-- `getEditorPlainText()` (src/Storyroot.js lines 1213-1216). -/
def getEditorPlainText (st : HLState) : List Char :=
  if st.editorPresent = false then [] else st.editorContent

/-- `saveCurrentNote(...)` (src/Storyroot.js lines 577-604) restricted
to note/highlight state: refresh `note.content` from the editor, call
`syncHighlightPositionsFromMarkers(note)`, persist via `saveNote`.
Emits a `reconciled` then a `persisted` event (tags, links and UI
refresh omitted). -/
def saveCurrentNote (st : HLState) : HLState × List Ev :=
  match st.currentNoteId with
  | none => (st, [])
  | some nid =>
    match findNote st.notes nid with
    | none => (st, [])
    | some note =>
      let note₁ := { note with content := getEditorPlainText st }
      let note₂ := syncHighlightPositionsFromMarkers st.editorPresent
        st.activeHighlightMarkers note₁
      ({ st with
          notes := updateNote st.notes nid (fun _ => note₂),
          persistedIds := st.persistedIds ++ [nid],
          hasUnsavedChanges := false },
        [Ev.reconciled nid, Ev.persisted nid])

/-- `openNote(noteId)` (src/Storyroot.js lines 433-483) restricted to
note/highlight state: add the note to the open tabs, make it current,
load its content into the editor, normalize a missing `highlights`
array to `[]`, rebuild the live markers, refresh the preview, and
re-enter the current edit mode (`switchEditorTab(currentEditMode)`).
UI rendering and settings persistence omitted. -/
def openNote (ext : Ext) (st : HLState) (noteId : Nat) : HLState × List Ev :=
  match findNote st.notes noteId with
  | none => (st, [])
  | some note =>
    let tabs := if noteId ∈ st.openTabs then st.openTabs else st.openTabs ++ [noteId]
    let st₁ := { st with
      openTabs := tabs, currentNoteId := some noteId, hasUnsavedChanges := false }
    let st₂ :=
      if st₁.editorPresent then { st₁ with editorContent := note.content } else st₁
    let note' := { note with highlights := some (note.highlights.getD []) }
    let st₃ := { st₂ with notes := updateNote st₂.notes noteId (fun _ => note') }
    let st₄ := { st₃ with
      activeHighlightMarkers :=
        applyHighlightMarkers st₃.editorPresent note'
          st₃.editorContent.length st₃.activeHighlightMarkers }
    let st₅ := updatePreview ext st₄
    let st₆ := switchEditorTab ext st₅ st₅.currentEditMode
    (st₆, [Ev.opened noteId])

/-- `switchToTab(noteId)` (src/Storyroot.js lines 525-543): no-op when
already current; otherwise, with a current note, either save it (which
reconciles then persists) when auto-save is on, or reconcile its
highlight positions directly; then open the target note. -/
def switchToTab (ext : Ext) (st : HLState) (noteId : Nat) : HLState × List Ev :=
  if st.currentNoteId = some noteId then (st, [])
  else
    let step1 : HLState × List Ev :=
      match st.currentNoteId with
      | none => (st, [])
      | some cur =>
        if st.autoSave then saveCurrentNote st
        else
          match findNote st.notes cur with
          | none => (st, [])
          | some note =>
            ({ st with
                notes := updateNote st.notes cur (fun _ =>
                  syncHighlightPositionsFromMarkers st.editorPresent
                    st.activeHighlightMarkers note) },
              [Ev.reconciled cur])
    let step2 := openNote ext step1.1 noteId
    (step2.1, step1.2 ++ step2.2)

/-- `closeTab(noteId, event)` (src/Storyroot.js lines 545-575): save
the current note first only when the closed tab is the current note,
auto-save is on and there are unsaved changes; then remove the tab;
when the closed tab was the current note, either open a neighboring
tab or, if it was the last tab, clear the editor
(`editor.setValue('')` clears every live marker). -/
def closeTab (ext : Ext) (st : HLState) (noteId : Nat) : HLState × List Ev :=
  let step1 : HLState × List Ev :=
    if st.currentNoteId = some noteId && st.autoSave && st.hasUnsavedChanges then
      saveCurrentNote st
    else (st, [])
  let st₁ := step1.1
  match st₁.openTabs.indexOf? noteId with
  | none => (st₁, step1.2)
  | some tabIndex =>
    let st₂ := { st₁ with openTabs := st₁.openTabs.eraseIdx tabIndex }
    if st₂.currentNoteId = some noteId then
      if 0 < st₂.openTabs.length then
        let newIndex := tabIndex - 1
        let target := (st₂.openTabs.get? newIndex).getD 0
        let step3 := openNote ext st₂ target
        (step3.1, step1.2 ++ step3.2)
      else
        ({ st₂ with
            currentNoteId := none,
            editorContent := if st₂.editorPresent then [] else st₂.editorContent,
            activeHighlightMarkers :=
              if st₂.editorPresent then
                st₂.activeHighlightMarkers.map (fun m => { m with range := none })
              else st₂.activeHighlightMarkers },
          step1.2)
    else (st₂, step1.2)

/-- The non-positional fields of a span (everything reconciliation must
not touch). -/
def Span.meta (h : Span) : List Char × List Char × String :=
  (h.text, h.previewText, h.color)

/-- The surviving spans of the overlap filter in `applyHighlight`
(src/Storyroot.js line 1289): a span survives exactly when
`h.to <= range.from || h.from >= range.to`. -/
def survivorsOf (hs : List Span) (selFrom selTo : Nat) : List Span :=
  hs.filter (fun h => decide (h.toIdx ≤ selFrom) || decide (selTo ≤ h.fromIdx))

/-- The single new span pushed by `applyHighlight`
(src/Storyroot.js line 1292). -/
def newSpanOf (ext : Ext) (content : List Char) (selFrom selTo : Nat)
    (color : String) : Span :=
  { fromIdx := selFrom, toIdx := selTo,
    text := sliceOf content selFrom selTo,
    previewText := ext.m2pt (sliceOf content selFrom selTo),
    color := color }

/-- Identity markdown pipeline, used to instantiate the external
collaborator at concrete inputs (plain text that renders to itself). -/
def extId : Ext := { m2pt := id, render := id }

/-- A baseline concrete session state for concrete instantiations. -/
def baseState : HLState :=
  { editorPresent := true
    editorContent := []
    currentNoteId := none
    notes := []
    activeHighlightMarkers := []
    persistedIds := []
    autoSave := false
    hasUnsavedChanges := false
    openTabs := []
    currentEditMode := .edit
    previewEditing := false
    previewSyncPending := false
    previewDomText := [] }

/-- Concrete note for the C2 overlap example: spans A = [0,3) and
B = [5,8). -/
def noteC2 : Note :=
  { id := 1, content := "0123456789".toList,
    highlights := some
      [{ fromIdx := 0, toIdx := 3, text := "012".toList,
         previewText := "012".toList, color := "#a" },
       { fromIdx := 5, toIdx := 8, text := "567".toList,
         previewText := "567".toList, color := "#b" }] }

/-- Concrete session state holding `noteC2` open. -/
def stC2 : HLState :=
  { baseState with
    currentNoteId := some 1,
    editorContent := "0123456789".toList,
    notes := [noteC2] }

/-- Per-marker consistency with a document of length `len`: a cleared
marker is vacuously consistent, a live one must report a valid range. -/
def markerOK (len : Nat) (m : MarkerEntry) : Prop :=
  match m.range with
  | none => True
  | some r => rangeOK len r

instance (len : Nat) (r : Nat × Nat) : Decidable (rangeOK len r) :=
  inferInstanceAs (Decidable (_ ∧ _))

instance (len : Nat) (m : MarkerEntry) : Decidable (markerOK len m) :=
  match m with
  | { range := none, idx := _ } => isTrue trivial
  | { range := some r, idx := _ } => inferInstanceAs (Decidable (rangeOK len r))

instance (len : Nat) (e : Edit) : Decidable (editWF len e) :=
  match e with
  | .insert p _ => inferInstanceAs (Decidable (p ≤ len))
  | .delete p k => inferInstanceAs (Decidable (p + k ≤ len))

/-- Decision procedure for `editsOK`. -/
def decEditsOK : (len : Nat) → (es : List Edit) → Decidable (editsOK len es)
  | _, [] => isTrue trivial
  | len, e :: es =>
    haveI := decEditsOK (newLen len e) es
    inferInstanceAs (Decidable (editWF len e ∧ editsOK (newLen len e) es))

instance (len : Nat) (es : List Edit) : Decidable (editsOK len es) :=
  decEditsOK len es

/-- Concrete note for the C1 edit-invariance example: content
"abcXYZdef" with one span covering "XYZ" at offsets 3-6. -/
def noteC1 : Note :=
  { id := 1, content := "abcXYZdef".toList,
    highlights := some
      [{ fromIdx := 3, toIdx := 6, text := "XYZ".toList,
         previewText := "XYZ".toList, color := "#ffe26a" }] }

/-- Concrete session state holding `noteC1` open; its marker list is
exactly `applyHighlightMarkers true noteC1 9 []`. -/
def stC1 : HLState :=
  { baseState with
    currentNoteId := some 1,
    editorContent := "abcXYZdef".toList,
    notes := [noteC1],
    activeHighlightMarkers := [{ range := some (3, 6), idx := 0 }] }

/-- Concrete span whose `matchText` is "cat". -/
def spanCat : Span :=
  { fromIdx := 0, toIdx := 3, text := "cat".toList,
    previewText := "cat".toList, color := "#c1" }

/-- Concrete span whose `matchText` is "category". -/
def spanCategory : Span :=
  { fromIdx := 0, toIdx := 8, text := "category".toList,
    previewText := "category".toList, color := "#c2" }

/-- Concrete mode-controller state: the user is in editable preview,
has edited the rendered text ("edited" in the preview pane, "original"
still in the editor), and the 800-unit debounce has not fired. -/
def stC4 : HLState :=
  { baseState with
    currentEditMode := .preview,
    previewEditing := true,
    previewSyncPending := true,
    editorContent := "original".toList,
    previewDomText := "edited".toList }

/-- Concrete highlight-bearing note for the close-tab scenario (span
stored at its stale creation-time offsets 3-6). -/
def noteC5 : Note :=
  { id := 1, content := "abcXYZdef".toList,
    highlights := some
      [{ fromIdx := 3, toIdx := 6, text := "XYZ".toList,
         previewText := "XYZ".toList, color := "#ffe26a" }] }

/-- Concrete session state: auto-save disabled, unsaved changes, note 1
open in its last remaining tab, and its live marker has drifted to
(6,9) after an edit (the stored span still says (3,6)). -/
def stC5 : HLState :=
  { baseState with
    autoSave := false,
    hasUnsavedChanges := true,
    currentNoteId := some 1,
    openTabs := [1],
    notes := [noteC5],
    editorContent := "123abcXYZdef".toList,
    activeHighlightMarkers := [{ range := some (6, 9), idx := 0 }] }

theorem length_modifyAt (l : List α) (i : Nat) (f : α → α) :
    (modifyAt l i f).length = l.length := by
  induction l generalizing i with
  | nil => rfl
  | cons a t ih =>
    cases i with
    | zero => rfl
    | succ j => simp [modifyAt, ih]

theorem get?_modifyAt_ne (l : List α) (i j : Nat) (f : α → α) (h : j ≠ i) :
    (modifyAt l i f).get? j = l.get? j := by
  induction l generalizing i j with
  | nil => rfl
  | cons a t ih =>
    cases i with
    | zero =>
      cases j with
      | zero => exact absurd rfl h
      | succ j' => rfl
    | succ i' =>
      cases j with
      | zero => rfl
      | succ j' =>
        simp only [modifyAt, List.get?]
        exact ih i' j' (fun hc => h (by omega))

theorem get?_modifyAt_eq (l : List α) (i : Nat) (f : α → α) :
    (modifyAt l i f).get? i = (l.get? i).map f := by
  induction l generalizing i with
  | nil => rfl
  | cons a t ih =>
    cases i with
    | zero => rfl
    | succ i' => simpa [modifyAt] using ih i'

theorem length_syncOne (hs : List Span) (m : MarkerEntry) :
    (syncOne hs m).length = hs.length := by
  unfold syncOne
  cases m.range with
  | none => rfl
  | some r => cases r with
    | mk f t => simp [length_modifyAt]

theorem length_foldl_syncOne (ms : List MarkerEntry) (hs : List Span) :
    (ms.foldl syncOne hs).length = hs.length := by
  induction ms generalizing hs with
  | nil => rfl
  | cons m tl ih => simpa [List.foldl_cons, length_syncOne] using
      (ih (syncOne hs m)).trans (length_syncOne hs m)

theorem get?_syncOne_meta (hs : List Span) (m : MarkerEntry) (j : Nat) :
    ((syncOne hs m).get? j).map Span.meta = (hs.get? j).map Span.meta := by
  unfold syncOne
  cases hr : m.range with
  | none => rfl
  | some r =>
    cases r with
    | mk f t =>
      by_cases hj : j = m.idx
      · subst hj
        rw [get?_modifyAt_eq]
        cases hs.get? m.idx <;> simp [Span.meta]
      · rw [get?_modifyAt_ne _ _ _ _ hj]

theorem get?_foldl_syncOne_meta (ms : List MarkerEntry) (hs : List Span) (j : Nat) :
    ((ms.foldl syncOne hs).get? j).map Span.meta = (hs.get? j).map Span.meta := by
  induction ms generalizing hs with
  | nil => rfl
  | cons m tl ih =>
    calc ((List.foldl syncOne (syncOne hs m) tl).get? j).map Span.meta
        = ((syncOne hs m).get? j).map Span.meta := ih (syncOne hs m)
      _ = (hs.get? j).map Span.meta := get?_syncOne_meta hs m j

theorem get?_foldl_syncOne_untouched (ms : List MarkerEntry) (hs : List Span) (i : Nat)
    (h : ∀ m ∈ ms, ∀ r, m.range = some r → m.idx ≠ i) :
    (ms.foldl syncOne hs).get? i = hs.get? i := by
  induction ms generalizing hs with
  | nil => rfl
  | cons m tl ih =>
    have h1 : (syncOne hs m).get? i = hs.get? i := by
      unfold syncOne
      cases hr : m.range with
      | none => rfl
      | some r =>
        cases r with
        | mk f t =>
          exact get?_modifyAt_ne _ _ _ _
            (fun hc => (h m (List.mem_cons_self m tl) (f, t) hr) (hc.symm))
    calc (List.foldl syncOne (syncOne hs m) tl).get? i
        = (syncOne hs m).get? i := ih (syncOne hs m)
          (fun m' hm' r hr => h m' (List.mem_cons_of_mem m hm') r hr)
      _ = hs.get? i := h1

theorem get?_foldl_syncOne_written (ms : List MarkerEntry) (hs : List Span)
    (m : MarkerEntry) (f t : Nat)
    (hnd : (ms.map MarkerEntry.idx).Nodup) (hm : m ∈ ms) (hr : m.range = some (f, t)) :
    (ms.foldl syncOne hs).get? m.idx =
      (hs.get? m.idx).map (fun h => { h with fromIdx := f, toIdx := t }) := by
  induction ms generalizing hs with
  | nil => exact absurd hm (List.not_mem_nil m)
  | cons a tl ih =>
    rw [List.map_cons, List.nodup_cons] at hnd
    rcases List.mem_cons.mp hm with heq | hmem
    · subst heq
      have htl : ∀ m' ∈ tl, ∀ r, m'.range = some r → m'.idx ≠ m.idx := by
        intro m' hm' r _ hc
        exact hnd.1 (hc ▸ List.mem_map_of_mem MarkerEntry.idx hm')
      rw [List.foldl_cons, get?_foldl_syncOne_untouched tl _ m.idx htl]
      unfold syncOne
      rw [hr]
      exact get?_modifyAt_eq hs m.idx _
    · have hne : a.idx ≠ m.idx := by
        intro hc
        exact hnd.1 (hc ▸ List.mem_map_of_mem MarkerEntry.idx hmem)
      have h1 : (syncOne hs a).get? m.idx = hs.get? m.idx := by
        unfold syncOne
        cases ha : a.range with
        | none => rfl
        | some r =>
          cases r with
          | mk f' t' => exact get?_modifyAt_ne _ _ _ _ (fun hc => hne hc.symm)
      rw [List.foldl_cons, ih (syncOne hs a) hnd.2 hmem, h1]

theorem mem_buildMarkers (len : Nat) :
    ∀ (hs : List Span) (i0 : Nat) (m : MarkerEntry),
      m ∈ buildMarkers len i0 hs ↔
        ∃ j h, hs.get? j = some h ∧
          ¬(len ≤ h.fromIdx ∨ len < h.toIdx ∨ h.toIdx ≤ h.fromIdx) ∧
          m = { range := some (h.fromIdx, h.toIdx), idx := i0 + j } := by
  intro hs
  induction hs with
  | nil =>
    intro i0 m
    simp [buildMarkers]
  | cons h t ih =>
    intro i0 m
    by_cases hpass : len ≤ h.fromIdx || len < h.toIdx || h.toIdx ≤ h.fromIdx
    · rw [buildMarkers, if_pos hpass, ih (i0 + 1) m]
      constructor
      · rintro ⟨j, h', hg, hc, hm⟩
        exact ⟨j + 1, h', by simpa using hg, hc, by simpa [Nat.add_assoc, Nat.add_comm 1 j] using hm⟩
      · rintro ⟨j, h', hg, hc, hm⟩
        cases j with
        | zero =>
          exfalso
          simp only [List.get?] at hg
          cases hg
          simp only [decide_eq_true_eq, Bool.or_eq_true] at hpass
          exact hc (by tauto)
        | succ j' =>
          exact ⟨j', h', by simpa using hg, hc,
            by simpa [Nat.add_assoc, Nat.add_comm 1 j'] using hm⟩
    · rw [buildMarkers, if_neg hpass]
      simp only [List.mem_cons, ih (i0 + 1) m]
      constructor
      · rintro (hm | ⟨j, h', hg, hc, hm⟩)
        · refine ⟨0, h, rfl, ?_, by simpa using hm⟩
          simp only [decide_eq_true_eq, Bool.or_eq_true] at hpass
          tauto
        · exact ⟨j + 1, h', by simpa using hg, hc,
            by simpa [Nat.add_assoc, Nat.add_comm 1 j] using hm⟩
      · rintro ⟨j, h', hg, hc, hm⟩
        cases j with
        | zero =>
          left
          simp only [List.get?] at hg
          cases hg
          simpa using hm
        | succ j' =>
          right
          exact ⟨j', h', by simpa using hg, hc,
            by simpa [Nat.add_assoc, Nat.add_comm 1 j'] using hm⟩

theorem findNote_updateNote (notes : List Note) (nid : Nat) (note note' : Note)
    (hfind : findNote notes nid = some note) (hid : note'.id = note.id) :
    findNote (updateNote notes nid (fun _ => note')) nid = some note' := by
  induction notes with
  | nil => simp [findNote] at hfind
  | cons n t ih =>
    by_cases hn : n.id = nid
    · have hb : ((fun n : Note => n.id == nid) n) = true := by simpa using hn
      unfold findNote at hfind
      rw [@List.find?_cons_of_pos _ (fun n : Note => n.id == nid) n t hb] at hfind
      cases hfind
      unfold updateNote findNote
      simp only [List.map_cons, if_pos hb]
      have hb' : ((fun n : Note => n.id == nid) note') = true := by
        simp [hid, hn]
      rw [@List.find?_cons_of_pos _ (fun n : Note => n.id == nid) note' _ hb']
    · have hb : ¬(((fun n : Note => n.id == nid) n) = true) := by simpa using hn
      unfold findNote at hfind
      rw [@List.find?_cons_of_neg _ (fun n : Note => n.id == nid) n t hb] at hfind
      unfold updateNote findNote
      simp only [List.map_cons, if_neg hb]
      rw [@List.find?_cons_of_neg _ (fun n : Note => n.id == nid) n _ hb]
      exact ih hfind

theorem updatePreview_notes (ext : Ext) (st : HLState) :
    (updatePreview ext st).notes = st.notes := by
  unfold updatePreview
  split <;> try rfl
  split <;> rfl

theorem updatePreview_persistedIds (ext : Ext) (st : HLState) :
    (updatePreview ext st).persistedIds = st.persistedIds := by
  unfold updatePreview
  split <;> try rfl
  split <;> rfl

theorem length_applyEdit (c : List Char) (e : Edit) (h : editWF c.length e) :
    (applyEdit c e).length = newLen c.length e := by
  cases e with
  | insert p s =>
    simp only [applyEdit, newLen, List.length_append, List.length_take, List.length_drop]
    unfold editWF at h
    omega
  | delete p k =>
    simp only [applyEdit, newLen, List.length_append, List.length_take, List.length_drop]
    unfold editWF at h
    omega

theorem adjustRange_ok (len : Nat) (e : Edit) (r r' : Nat × Nat)
    (hwf : editWF len e) (hr : rangeOK len r) (ha : adjustRange e r = some r') :
    rangeOK (newLen len e) r' := by
  obtain ⟨f, t⟩ := r
  have hlt : f < t := hr.1
  have hle : t ≤ len := hr.2
  cases e with
  | insert p s =>
    simp only [adjustRange, Option.some.injEq] at ha
    unfold editWF at hwf
    unfold rangeOK newLen
    cases ha
    refine ⟨?_, ?_⟩ <;> dsimp only <;> split_ifs <;> omega
  | delete p k =>
    simp only [adjustRange] at ha
    unfold editWF at hwf
    unfold rangeOK newLen
    split at ha
    · cases ha
      refine ⟨by assumption, ?_⟩
      dsimp only [clampAfterDelete]
      split_ifs <;> omega
    · cases ha

theorem marker_idx_applyEditS (st : HLState) (e : Edit) :
    (applyEditS st e).activeHighlightMarkers.map MarkerEntry.idx =
      st.activeHighlightMarkers.map MarkerEntry.idx := by
  simp [applyEditS, adjustMarker, List.map_map, Function.comp]

theorem marker_idx_foldl_applyEditS (es : List Edit) (st : HLState) :
    ((es.foldl applyEditS st).activeHighlightMarkers.map MarkerEntry.idx) =
      st.activeHighlightMarkers.map MarkerEntry.idx := by
  induction es generalizing st with
  | nil => rfl
  | cons e tl ih => rw [List.foldl_cons, ih, marker_idx_applyEditS]

theorem markers_ok_foldl_applyEditS (es : List Edit) (st : HLState)
    (hok : editsOK st.editorContent.length es)
    (hm : ∀ m ∈ st.activeHighlightMarkers, ∀ r, m.range = some r →
      rangeOK st.editorContent.length r) :
    ∀ m ∈ (es.foldl applyEditS st).activeHighlightMarkers, ∀ r, m.range = some r →
      rangeOK (es.foldl applyEditS st).editorContent.length r := by
  induction es generalizing st with
  | nil => exact hm
  | cons e tl ih =>
    obtain ⟨hwf, hrest⟩ := hok
    have hlen : (applyEditS st e).editorContent.length = newLen st.editorContent.length e :=
      length_applyEdit st.editorContent e hwf
    refine ih (applyEditS st e) (by rw [hlen]; exact hrest) ?_
    intro m hmem r hr
    simp only [applyEditS, List.mem_map] at hmem
    obtain ⟨m0, hm0, hm0e⟩ := hmem
    subst hm0e
    simp only [adjustMarker, Option.bind] at hr
    cases h0 : m0.range with
    | none => rw [h0] at hr; cases hr
    | some r0 =>
      rw [h0] at hr
      simp only [] at hr
      rw [hlen]
      exact adjustRange_ok st.editorContent.length e r0 r hwf (hm m0 hm0 r0 h0) hr

theorem adjustRange_insert_before (p f t : Nat) (s : List Char)
    (hpf : p ≤ f) (hft : f < t) :
    adjustRange (Edit.insert p s) (f, t) = some (f + s.length, t + s.length) := by
  simp only [adjustRange, Option.some.injEq]
  rw [if_pos hpf, if_pos (show p < t by omega)]

theorem sliceOf_insert_before (c : List Char) (p f t : Nat) (s : List Char)
    (hpf : p ≤ f) (hpl : p ≤ c.length) :
    sliceOf (applyEdit c (Edit.insert p s)) (f + s.length) (t + s.length) =
      sliceOf c f t := by
  unfold sliceOf applyEdit
  have hlt : (c.take p).length = p := by
    simp [List.length_take]
    omega
  have h1 : (c.take p ++ s ++ c.drop p).drop (f + s.length) =
      c.drop f := by
    rw [List.append_assoc, List.drop_append_eq_append_drop]
    rw [List.drop_eq_nil_of_le (by omega : (c.take p).length ≤ f + s.length)]
    rw [List.nil_append, List.drop_append_eq_append_drop]
    rw [List.drop_eq_nil_of_le (by omega : s.length ≤ f + s.length - (c.take p).length)]
    rw [List.nil_append, List.drop_drop]
    congr 1
    omega
  rw [h1]
  congr 1
  omega

theorem marksL_append (a b : List PNode) :
    marksL (a ++ b) = marksL a ++ marksL b := by
  induction a with
  | nil => simp [marksL]
  | cons x xs ih =>
    cases x with
    | text s => simpa [marksL] using ih
    | mark c cs => simp [marksL, ih, List.append_assoc]
    | elem tag cs => simp [marksL, ih, List.append_assoc]

theorem marksL_wrapText (needle : List Char) (color : String) (s : List Char) :
    marksL (wrapText needle color s) =
      if (findSub needle s).isSome then [(color, needle)] else [] := by
  unfold wrapText
  cases h : findSub needle s with
  | none => simp [marksL]
  | some i =>
    simp only [Option.isSome_some, if_true]
    by_cases hb : (s.take i).isEmpty <;>
      by_cases ha : (s.drop (i + needle.length)).isEmpty <;>
        simp [hb, ha, marksL, marksL_append, textContentL]

theorem marks_count_highlightTextInContainer (needle : List Char) (color : String) :
    (l : List PNode) →
      (marksL (highlightTextInContainer needle color l)).length =
        (marksL l).length + hitCount needle l
  | [] => by simp [highlightTextInContainer, marksL, hitCount]
  | .text s :: ns => by
    rw [highlightTextInContainer, marksL_append, marksL_wrapText]
    have ih := marks_count_highlightTextInContainer needle color ns
    cases h : (findSub needle s).isSome <;>
      (simp [h, marksL, hitCount, ih]; try omega)
  | .mark c cs :: ns => by
    have ih1 := marks_count_highlightTextInContainer needle color cs
    have ih2 := marks_count_highlightTextInContainer needle color ns
    rw [highlightTextInContainer]
    simp only [marksL, List.length_cons, List.length_append, hitCount]
    omega
  | .elem tag cs :: ns => by
    have ih1 := marks_count_highlightTextInContainer needle color cs
    have ih2 := marks_count_highlightTextInContainer needle color ns
    rw [highlightTextInContainer]
    simp only [marksL, List.length_append, hitCount]
    omega

theorem mem_insertDesc (key : α → Nat) (x z : α) (l : List α) :
    z ∈ insertDesc key x l ↔ z = x ∨ z ∈ l := by
  induction l with
  | nil => simp [insertDesc]
  | cons y ys ih =>
    unfold insertDesc
    split_ifs with h
    · simp [List.mem_cons]
    · simp only [List.mem_cons, ih]
      tauto

theorem perm_insertDesc (key : α → Nat) (x : α) (l : List α) :
    List.Perm (insertDesc key x l) (x :: l) := by
  induction l with
  | nil => exact List.Perm.refl _
  | cons y ys ih =>
    unfold insertDesc
    split_ifs with h
    · exact List.Perm.refl _
    · exact List.Perm.trans (List.Perm.cons y ih) (List.Perm.swap x y ys)

theorem pairwise_insertDesc (key : α → Nat) (x : α) (l : List α)
    (h : l.Pairwise (fun a b => key b ≤ key a)) :
    (insertDesc key x l).Pairwise (fun a b => key b ≤ key a) := by
  induction l with
  | nil => simp [insertDesc]
  | cons y ys ih =>
    rw [List.pairwise_cons] at h
    unfold insertDesc
    split_ifs with hlt
    · rw [List.pairwise_cons]
      refine ⟨?_, List.pairwise_cons.mpr h⟩
      intro z hz
      rcases List.mem_cons.mp hz with hz | hz
      · subst hz; omega
      · have := h.1 z hz; omega
    · rw [List.pairwise_cons]
      refine ⟨?_, ih h.2⟩
      intro z hz
      rcases (mem_insertDesc key x z ys).mp hz with hz | hz
      · subst hz; omega
      · exact h.1 z hz

theorem sortDesc_sorted (key : α → Nat) (l : List α) :
    (sortDesc key l).Pairwise (fun a b => key b ≤ key a) := by
  induction l with
  | nil => simp [sortDesc]
  | cons x xs ih => exact pairwise_insertDesc key x _ ih

theorem sortDesc_perm (key : α → Nat) (l : List α) :
    List.Perm (sortDesc key l) l := by
  induction l with
  | nil => exact List.Perm.refl _
  | cons x xs ih =>
    exact List.Perm.trans (perm_insertDesc key x _) (List.Perm.cons x ih)

/-- C8: for every state of the span store, calling `applyHighlight`
with an empty selection (`range.from = range.to`) signals the
`EmptySelection` condition (the user-visible toast) and performs no
mutation at all: the returned state is the input state, so in
particular the note's highlights array is unchanged and nothing is
persisted. -/
theorem applyHighlight_empty_selection (ext : Ext) (st : HLState)
    (selFrom selTo : Nat) (color : String) (nid : Nat)
    (hED : st.editorPresent = true) (hcur : st.currentNoteId = some nid)
    (heq : selFrom = selTo) :
    applyHighlight ext st selFrom selTo color = (st, ApplyOutcome.emptySelection) := by
  simp [applyHighlight, hED, hcur, heq]

/-- Witness for C8 at a concrete state: span store with one span,
selection collapsed at offset 2. -/
theorem applyHighlight_empty_selection_witness :
    ({ baseState with
        currentNoteId := some 1,
        notes := [{ id := 1, content := "hello".toList,
                    highlights := some [{ fromIdx := 0, toIdx := 2, text := "he".toList,
                                          previewText := "he".toList, color := "#ffe26a" }] }]
      } : HLState).editorPresent = true ∧
    applyHighlight extId
      { baseState with
        currentNoteId := some 1,
        notes := [{ id := 1, content := "hello".toList,
                    highlights := some [{ fromIdx := 0, toIdx := 2, text := "he".toList,
                                          previewText := "he".toList, color := "#ffe26a" }] }] }
      2 2 "#ffe26a" =
      ({ baseState with
          currentNoteId := some 1,
          notes := [{ id := 1, content := "hello".toList,
                      highlights := some [{ fromIdx := 0, toIdx := 2, text := "he".toList,
                                            previewText := "he".toList, color := "#ffe26a" }] }] },
        ApplyOutcome.emptySelection) :=
  ⟨by decide, applyHighlight_empty_selection extId _ 2 2 "#ffe26a" 1 rfl rfl rfl⟩

/-- C10: with no editor instance or no open note, both `applyHighlight`
and `removeHighlight` return as silent no-ops: the state (hence every
note's highlights array and the persistence log) is unchanged. -/
theorem highlight_ops_no_session (ext : Ext) (st : HLState) (a b : Nat) (color : String)
    (h : st.editorPresent = false ∨ st.currentNoteId = none) :
    applyHighlight ext st a b color = (st, ApplyOutcome.noSession) ∧
    removeHighlight ext st a b = (st, RemoveOutcome.noSession) := by
  rcases h with h | h
  · constructor <;> simp [applyHighlight, removeHighlight, h]
  · by_cases hED : st.editorPresent = false
    · constructor <;> simp [applyHighlight, removeHighlight, hED]
    · constructor <;> simp [applyHighlight, removeHighlight, hED, h]

/-- Witness for C10 at a concrete state: an editor is present but no
note is open. -/
theorem highlight_ops_no_session_witness :
    ({ baseState with
        notes := [{ id := 1, content := "abc".toList, highlights := some [] }]
      } : HLState).currentNoteId = none ∧
    applyHighlight extId
      { baseState with notes := [{ id := 1, content := "abc".toList, highlights := some [] }] }
      0 2 "#ffe26a" =
      ({ baseState with notes := [{ id := 1, content := "abc".toList, highlights := some [] }] },
        ApplyOutcome.noSession) ∧
    removeHighlight extId
      { baseState with notes := [{ id := 1, content := "abc".toList, highlights := some [] }] }
      0 2 =
      ({ baseState with notes := [{ id := 1, content := "abc".toList, highlights := some [] }] },
        RemoveOutcome.noSession) := by
  refine ⟨by decide, ?_, ?_⟩
  · exact (highlight_ops_no_session extId _ 0 2 "#ffe26a" (Or.inr rfl)).1
  · exact (highlight_ops_no_session extId _ 0 2 "#ffe26a" (Or.inr rfl)).2

/-- C2: for every existing span set and non-empty range,
`applyHighlight` removes exactly those existing spans whose interval
intersects the range — a span survives iff
`existing.to <= range.from OR existing.from >= range.to`, and
intersecting spans are removed whole, never split — and then appends
exactly one new span covering the range. -/
theorem applyHighlight_overlap_replacement (ext : Ext) (st : HLState)
    (selFrom selTo : Nat) (color : String) (nid : Nat) (note : Note)
    (hED : st.editorPresent = true) (hcur : st.currentNoteId = some nid)
    (hfind : findNote st.notes nid = some note) (hne : selFrom ≠ selTo) :
    (applyHighlight ext st selFrom selTo color).2 = ApplyOutcome.applied ∧
    ∃ note',
      findNote (applyHighlight ext st selFrom selTo color).1.notes nid = some note' ∧
      note'.highlights = some
        (survivorsOf (note.highlights.getD []) selFrom selTo ++
          [newSpanOf ext st.editorContent selFrom selTo color]) ∧
      ∀ h, h ∈ survivorsOf (note.highlights.getD []) selFrom selTo ↔
        (h ∈ note.highlights.getD [] ∧ (h.toIdx ≤ selFrom ∨ selTo ≤ h.fromIdx)) := by
  refine ⟨by simp [applyHighlight, hED, hcur, hfind, hne], ?_⟩
  refine
    ⟨{ note with
       highlights := some (survivorsOf (note.highlights.getD []) selFrom selTo ++
                             [newSpanOf ext st.editorContent selFrom selTo color]) },
      ?_, rfl, ?_⟩
  · have hnotes : (applyHighlight ext st selFrom selTo color).1.notes =
        updateNote st.notes nid (fun _ =>
          { note with
            highlights := some (survivorsOf (note.highlights.getD []) selFrom selTo ++
                                  [newSpanOf ext st.editorContent selFrom selTo color]) }) := by
      simp [applyHighlight, hED, hcur, hfind, hne, updatePreview_notes,
        survivorsOf, newSpanOf]
    rw [hnotes]
    exact findNote_updateNote st.notes nid note _ hfind rfl
  · intro h
    simp [survivorsOf, List.mem_filter]

/-- Witness for C2: the spec's overlap example — spans A = [0,3) and
B = [5,8) on content "0123456789", highlighting [2,6) removes both and
leaves exactly the one span [2,6). -/
theorem applyHighlight_overlap_replacement_witness :
    findNote stC2.notes 1 = some noteC2 ∧
    ((applyHighlight extId stC2 2 6 "#c").2 = ApplyOutcome.applied ∧
      ∃ note',
        findNote (applyHighlight extId stC2 2 6 "#c").1.notes 1 = some note' ∧
        note'.highlights = some
          (survivorsOf (noteC2.highlights.getD []) 2 6 ++
            [newSpanOf extId stC2.editorContent 2 6 "#c"]) ∧
        ∀ h, h ∈ survivorsOf (noteC2.highlights.getD []) 2 6 ↔
          (h ∈ noteC2.highlights.getD [] ∧ (h.toIdx ≤ 2 ∨ 6 ≤ h.fromIdx))) :=
  ⟨by decide,
    applyHighlight_overlap_replacement extId stC2 2 6 "#c" 1 noteC2
      rfl rfl (by decide) (by decide)⟩

/-- C3: the live-marker rebuild (`applyHighlightMarkers`) creates a
marker for a span exactly when `0 <= from < to <= length(content)`
(`from` is a natural number, so `0 <= from` always holds; the source's
guard `from >= len || to > len || from >= to` is the negation of the
remaining conditions); every marker is anchored at its span's stored
offsets, and a failing span is silently dropped from the live set while
the function reads, and never writes, the note's highlights array. -/
theorem applyHighlightMarkers_bounds_guard (note : Note) (len : Nat)
    (old : List MarkerEntry) (hs : List Span) (hhs : note.highlights = some hs) :
    (∀ i h, hs.get? i = some h →
      ((∃ m ∈ applyHighlightMarkers true note len old, m.idx = i) ↔
        (h.fromIdx < h.toIdx ∧ h.toIdx ≤ len))) ∧
    (∀ m ∈ applyHighlightMarkers true note len old,
      ∃ h, hs.get? m.idx = some h ∧ m.range = some (h.fromIdx, h.toIdx)) := by
  have hbm : applyHighlightMarkers true note len old = buildMarkers len 0 hs := by
    simp [applyHighlightMarkers, hhs]
  rw [hbm]
  constructor
  · intro i h hget
    constructor
    · rintro ⟨m, hm, hidx⟩
      obtain ⟨j, h', hg, hc, hme⟩ := (mem_buildMarkers len hs 0 m).mp hm
      subst hme
      simp only at hidx
      have hj : j = i := by omega
      subst hj
      rw [hget] at hg
      cases hg
      push_neg at hc
      omega
    · intro hcond
      refine ⟨{ range := some (h.fromIdx, h.toIdx), idx := i }, ?_, rfl⟩
      exact (mem_buildMarkers len hs 0 _).mpr
        ⟨i, h, hget, by omega, by simp⟩
  · intro m hm
    obtain ⟨j, h', hg, hc, hme⟩ := (mem_buildMarkers len hs 0 m).mp hm
    subst hme
    exact ⟨h', by simpa using hg, rfl⟩

/-- Witness for C3: the spec's bounds-guard example — a span with `to`
beyond the content length is excluded from the rebuilt marker set, an
in-bounds span gets a marker at its stored offsets. -/
theorem applyHighlightMarkers_bounds_guard_witness :
    ({ id := 1, content := "abcde".toList,
       highlights := some
         [{ fromIdx := 0, toIdx := 2, text := "ab".toList,
            previewText := "ab".toList, color := "#a" },
          { fromIdx := 1, toIdx := 9, text := "zzz".toList,
            previewText := "zzz".toList, color := "#b" }] } : Note).highlights = some
      [{ fromIdx := 0, toIdx := 2, text := "ab".toList,
         previewText := "ab".toList, color := "#a" },
       { fromIdx := 1, toIdx := 9, text := "zzz".toList,
         previewText := "zzz".toList, color := "#b" }] ∧
    (∀ m ∈ applyHighlightMarkers true
        { id := 1, content := "abcde".toList,
          highlights := some
            [{ fromIdx := 0, toIdx := 2, text := "ab".toList,
               previewText := "ab".toList, color := "#a" },
             { fromIdx := 1, toIdx := 9, text := "zzz".toList,
               previewText := "zzz".toList, color := "#b" }] } 5 [],
      ∃ h, ([{ fromIdx := 0, toIdx := 2, text := "ab".toList,
               previewText := "ab".toList, color := "#a" },
             { fromIdx := 1, toIdx := 9, text := "zzz".toList,
               previewText := "zzz".toList, color := "#b" }] : List Span).get? m.idx = some h ∧
        m.range = some (h.fromIdx, h.toIdx)) :=
  ⟨rfl,
    (applyHighlightMarkers_bounds_guard
      { id := 1, content := "abcde".toList,
        highlights := some
          [{ fromIdx := 0, toIdx := 2, text := "ab".toList,
             previewText := "ab".toList, color := "#a" },
           { fromIdx := 1, toIdx := 9, text := "zzz".toList,
             previewText := "zzz".toList, color := "#b" }] } 5 [] _ rfl).2⟩

/-- C9: reconciliation (`syncHighlightPositionsFromMarkers`) mutates
only the `from`/`to` of spans whose live marker still reports a range:
it never changes a span's `text`, `previewText` or `color`
(`Span.meta`), never adds, removes or reorders spans (the result is
pointwise aligned with the input at every index), leaves the rest of
the note untouched, and leaves every span untargeted by a live marker
(in particular one whose marker reports cleared) exactly as it was. -/
theorem sync_frame_effects (editorPresent : Bool) (markers : List MarkerEntry)
    (note : Note) (hs : List Span) (hhs : note.highlights = some hs) :
    ∃ hs',
      (syncHighlightPositionsFromMarkers editorPresent markers note).highlights = some hs' ∧
      (syncHighlightPositionsFromMarkers editorPresent markers note).id = note.id ∧
      (syncHighlightPositionsFromMarkers editorPresent markers note).content = note.content ∧
      hs'.length = hs.length ∧
      (∀ j, (hs'.get? j).map Span.meta = (hs.get? j).map Span.meta) ∧
      (∀ i, (∀ m ∈ markers, ∀ r, m.range = some r → m.idx ≠ i) →
        hs'.get? i = hs.get? i) := by
  cases hED : editorPresent with
  | false =>
    refine ⟨hs, ?_, ?_, ?_, rfl, fun j => rfl, fun i _ => rfl⟩ <;>
      simp [syncHighlightPositionsFromMarkers, hhs]
  | true =>
    refine ⟨markers.foldl syncOne hs, ?_, ?_, ?_, ?_, ?_, ?_⟩
    · simp [syncHighlightPositionsFromMarkers, hhs]
    · simp [syncHighlightPositionsFromMarkers, hhs]
    · simp [syncHighlightPositionsFromMarkers, hhs]
    · exact length_foldl_syncOne markers hs
    · exact fun j => get?_foldl_syncOne_meta markers hs j
    · exact fun i h => get?_foldl_syncOne_untouched markers hs i h

/-- Witness for C9 at a concrete state: two spans, one live marker that
moved to (4,6), one cleared marker; only the first span's offsets
change, the second span is untouched, metadata everywhere intact. -/
theorem sync_frame_effects_witness :
    ({ id := 7, content := "abcdef".toList,
       highlights := some
         [{ fromIdx := 1, toIdx := 3, text := "bc".toList,
            previewText := "bc".toList, color := "#a" },
          { fromIdx := 4, toIdx := 5, text := "e".toList,
            previewText := "e".toList, color := "#b" }] } : Note).highlights = some
      [{ fromIdx := 1, toIdx := 3, text := "bc".toList,
         previewText := "bc".toList, color := "#a" },
       { fromIdx := 4, toIdx := 5, text := "e".toList,
         previewText := "e".toList, color := "#b" }] ∧
    ∃ hs',
      (syncHighlightPositionsFromMarkers true
        [{ range := some (4, 6), idx := 0 }, { range := none, idx := 1 }]
        { id := 7, content := "abcdef".toList,
          highlights := some
            [{ fromIdx := 1, toIdx := 3, text := "bc".toList,
               previewText := "bc".toList, color := "#a" },
             { fromIdx := 4, toIdx := 5, text := "e".toList,
               previewText := "e".toList, color := "#b" }] }).highlights = some hs' ∧
      (syncHighlightPositionsFromMarkers true
        [{ range := some (4, 6), idx := 0 }, { range := none, idx := 1 }]
        { id := 7, content := "abcdef".toList,
          highlights := some
            [{ fromIdx := 1, toIdx := 3, text := "bc".toList,
               previewText := "bc".toList, color := "#a" },
             { fromIdx := 4, toIdx := 5, text := "e".toList,
               previewText := "e".toList, color := "#b" }] }).id = 7 ∧
      (syncHighlightPositionsFromMarkers true
        [{ range := some (4, 6), idx := 0 }, { range := none, idx := 1 }]
        { id := 7, content := "abcdef".toList,
          highlights := some
            [{ fromIdx := 1, toIdx := 3, text := "bc".toList,
               previewText := "bc".toList, color := "#a" },
             { fromIdx := 4, toIdx := 5, text := "e".toList,
               previewText := "e".toList, color := "#b" }] }).content = "abcdef".toList ∧
      hs'.length = 2 ∧
      (∀ j, (hs'.get? j).map Span.meta =
        (([{ fromIdx := 1, toIdx := 3, text := "bc".toList,
             previewText := "bc".toList, color := "#a" },
           { fromIdx := 4, toIdx := 5, text := "e".toList,
             previewText := "e".toList, color := "#b" }] : List Span).get? j).map Span.meta) ∧
      (∀ i, (∀ m ∈ ([{ range := some (4, 6), idx := 0 },
                     { range := none, idx := 1 }] : List MarkerEntry),
          ∀ r, m.range = some r → m.idx ≠ i) →
        hs'.get? i =
          ([{ fromIdx := 1, toIdx := 3, text := "bc".toList,
              previewText := "bc".toList, color := "#a" },
            { fromIdx := 4, toIdx := 5, text := "e".toList,
              previewText := "e".toList, color := "#b" }] : List Span).get? i) :=
  ⟨rfl,
    sync_frame_effects true
      [{ range := some (4, 6), idx := 0 }, { range := none, idx := 1 }]
      { id := 7, content := "abcdef".toList,
        highlights := some
          [{ fromIdx := 1, toIdx := 3, text := "bc".toList,
             previewText := "bc".toList, color := "#a" },
           { fromIdx := 4, toIdx := 5, text := "e".toList,
             previewText := "e".toList, color := "#b" }] }
      _ rfl⟩

/-- C1: after reconciliation, every span whose live marker still
reports a range has offsets consistent with the current content —
after any well-formed edit sequence, a surviving marker's range `(f,t)`
satisfies `f < t ≤ length(current content)` and reconciliation writes
exactly that range into the span (first conjunct); moreover an
insertion at or before a span's start shifts its marker by the inserted
length and the shifted offsets bound exactly the same text as before
(second conjunct — the edit-invariance of earlier highlights). -/
theorem reconcile_offsets_consistent (st : HLState) (edits : List Edit)
    (note : Note) (hs : List Span)
    (hok : editsOK st.editorContent.length edits)
    (hm : ∀ m ∈ st.activeHighlightMarkers, markerOK st.editorContent.length m)
    (hnd : (st.activeHighlightMarkers.map MarkerEntry.idx).Nodup)
    (hhs : note.highlights = some hs) :
    (∀ m ∈ (edits.foldl applyEditS st).activeHighlightMarkers, ∀ f t,
        m.range = some (f, t) →
        (f < t ∧ t ≤ (edits.foldl applyEditS st).editorContent.length) ∧
        ∃ hs',
          (syncHighlightPositionsFromMarkers true
            (edits.foldl applyEditS st).activeHighlightMarkers note).highlights =
              some hs' ∧
          hs'.get? m.idx =
            (hs.get? m.idx).map (fun h => { h with fromIdx := f, toIdx := t })) ∧
    (∀ (c : List Char) (p f t : Nat) (s : List Char),
        p ≤ f → f < t → t ≤ c.length →
        adjustRange (Edit.insert p s) (f, t) = some (f + s.length, t + s.length) ∧
        sliceOf (applyEdit c (Edit.insert p s)) (f + s.length) (t + s.length) =
          sliceOf c f t) := by
  constructor
  · intro m hmem f t hr
    have hm' : ∀ m ∈ st.activeHighlightMarkers, ∀ r, m.range = some r →
        rangeOK st.editorContent.length r := by
      intro m0 h0 r0 hr0
      have := hm m0 h0
      unfold markerOK at this
      rw [hr0] at this
      exact this
    have hok' := markers_ok_foldl_applyEditS edits st hok hm' m hmem (f, t) hr
    refine ⟨⟨hok'.1, hok'.2⟩, ?_⟩
    have hnd' : ((edits.foldl applyEditS st).activeHighlightMarkers.map
        MarkerEntry.idx).Nodup := by
      rw [marker_idx_foldl_applyEditS]
      exact hnd
    refine ⟨(edits.foldl applyEditS st).activeHighlightMarkers.foldl syncOne hs, ?_, ?_⟩
    · simp [syncHighlightPositionsFromMarkers, hhs]
    · exact get?_foldl_syncOne_written _ hs m f t hnd' hmem hr
  · intro c p f t s hpf hft htl
    refine ⟨adjustRange_insert_before p f t s hpf hft, ?_⟩
    exact sliceOf_insert_before c p f t s hpf (by omega)

/-- Witness for C1: the spec's edit-invariance example — content
"abcXYZdef", span at 3-6 covering "XYZ", insert "123" at offset 0,
reconcile; the span lands at offsets 6-9 and still bounds exactly
"XYZ". -/
theorem reconcile_offsets_consistent_witness :
    stC1.activeHighlightMarkers =
      applyHighlightMarkers true noteC1 stC1.editorContent.length [] ∧
    editsOK stC1.editorContent.length [Edit.insert 0 "123".toList] ∧
    (syncHighlightPositionsFromMarkers true
        ([Edit.insert 0 "123".toList].foldl applyEditS stC1).activeHighlightMarkers
        noteC1).highlights =
      some [{ fromIdx := 6, toIdx := 9, text := "XYZ".toList,
              previewText := "XYZ".toList, color := "#ffe26a" }] ∧
    sliceOf ([Edit.insert 0 "123".toList].foldl applyEditS stC1).editorContent 6 9 =
      "XYZ".toList ∧
    (adjustRange (Edit.insert 0 "123".toList) (3, 6) =
        some (3 + "123".toList.length, 6 + "123".toList.length) ∧
      sliceOf (applyEdit "abcXYZdef".toList (Edit.insert 0 "123".toList))
          (3 + "123".toList.length) (6 + "123".toList.length) =
        sliceOf "abcXYZdef".toList 3 6) :=
  ⟨by decide, by decide, by decide, by decide,
    (reconcile_offsets_consistent stC1 [Edit.insert 0 "123".toList] noteC1 _
      (by decide) (by decide) (by decide) rfl).2
      "abcXYZdef".toList 0 3 6 "123".toList (by decide) (by decide) (by decide)⟩

/-- C6 (counterexample): the claim says the projector stops after the
first match, injecting at most one visual marker per span per preview
render; but `highlightTextInContainer` continues over the remaining
text nodes — with a single span "cat" and a preview of two paragraphs
each containing "cat", the render injects two markers. -/
theorem preview_marker_per_node_cex :
    (marksL (applyHighlightsToPreview id
      [PNode.elem "p" [PNode.text "cat".toList],
       PNode.elem "p" [PNode.text "cat".toList]]
      (some [spanCat]))).length = 2 ∧
    ¬(marksL (applyHighlightsToPreview id
      [PNode.elem "p" [PNode.text "cat".toList],
       PNode.elem "p" [PNode.text "cat".toList]]
      (some [spanCat]))).length ≤ 1 := by
  have h2 : (marksL (applyHighlightsToPreview id
      [PNode.elem "p" [PNode.text "cat".toList],
       PNode.elem "p" [PNode.text "cat".toList]]
      (some [spanCat]))).length = 2 := by
    simp [applyHighlightsToPreview, matchTextOf, trimChars, spanCat,
      sortDesc, insertDesc, highlightTextInContainer, wrapText, findSub,
      marksL, textContentL]
  exact ⟨h2, by omega⟩

/-- C6 (amended): the preview projector walks the preview tree's text
nodes in document order and, in every text node containing the span's
`matchText` as a literal substring, wraps the first occurrence in that
node — one marker per matching text node, so a span may inject several
markers in one preview render (one per matching node), not at most
one. -/
theorem highlightTextInContainer_marks_per_node (needle : List Char)
    (color : String) (l : List PNode) :
    (marksL (highlightTextInContainer needle color l)).length =
      (marksL l).length + hitCount needle l :=
  marks_count_highlightTextInContainer needle color l

/-- C7: the preview projector sorts spans by `matchText` length,
longest first (the processing order is length-descending and a
permutation of the span set), and consequently on rendered text
"a category of cats" with spans "cat" and "category" the span
"category" is wrapped as one marked unit — the render contains a
single mark carrying the "category" span's color whose text content is
exactly "category" — rather than being split into "cat" + "egory". -/
theorem preview_longest_first :
    (∀ l : List (List Char × String),
      (sortDesc (fun p => p.1.length) l).Pairwise
        (fun a b => b.1.length ≤ a.1.length) ∧
      List.Perm (sortDesc (fun p => p.1.length) l) l) ∧
    (applyHighlightsToPreview id [PNode.text "a category of cats".toList]
        (some [spanCat, spanCategory]) =
      [PNode.text "a ".toList,
       PNode.mark "#c2" [PNode.mark "#c1" [PNode.text "cat".toList],
                         PNode.text "egory".toList],
       PNode.text " of ".toList,
       PNode.mark "#c1" [PNode.text "cat".toList],
       PNode.text "s".toList] ∧
      ("#c2", "category".toList) ∈ marksL (applyHighlightsToPreview id
        [PNode.text "a category of cats".toList]
        (some [spanCat, spanCategory]))) := by
  refine ⟨fun l => ⟨sortDesc_sorted _ l, sortDesc_perm _ l⟩, ?_, ?_⟩
  · simp [applyHighlightsToPreview, matchTextOf, trimChars, spanCat, spanCategory,
      sortDesc, insertDesc, highlightTextInContainer, wrapText, findSub]
  · simp [applyHighlightsToPreview, matchTextOf, trimChars, spanCat, spanCategory,
      sortDesc, insertDesc, highlightTextInContainer, wrapText, findSub,
      marksL, textContentL]

/-- C4 (counterexample): the claim says leaving preview mode for ANY
other mode while a debounced preview-to-source sync is pending flushes
that sync before switching; but switching from `preview` to `split`
does not flush — the editor keeps "original" although the editable
preview holds "edited", the debounce timer is left pending, and the
preview pane is re-rendered from the stale editor content, so the
preview edits are lost. -/
theorem switchEditorTab_split_no_flush_cex :
    stC4.currentEditMode = EditMode.preview ∧
    stC4.previewEditing = true ∧
    stC4.previewSyncPending = true ∧
    stC4.previewDomText = "edited".toList ∧
    (switchEditorTab extId stC4 .split).editorContent = "original".toList ∧
    (switchEditorTab extId stC4 .split).previewSyncPending = true ∧
    (switchEditorTab extId stC4 .split).previewDomText = "original".toList ∧
    "original".toList ≠ "edited".toList := by
  refine ⟨rfl, rfl, rfl, rfl, ?_, ?_, ?_, by decide⟩ <;>
    simp [switchEditorTab, updatePreview, syncPreviewToEditor, stC4, baseState, extId]

/-- C4 (amended): the pending preview-to-source sync is flushed
(debounce timer cancelled, sync run synchronously) only when the
target mode is `edit`: switching to `edit` with a pending sync puts
the edited preview text into the editor and clears the timer, so the
spec's concrete scenario holds for `preview` to `edit`; switching to
`split` leaves the editor content and the pending timer untouched and
re-renders the preview from the editor content. -/
theorem switchEditorTab_flush_only_edit (ext : Ext) (st : HLState)
    (hED : st.editorPresent = true) (hpe : st.previewEditing = true)
    (hpend : st.previewSyncPending = true) :
    ((switchEditorTab ext st .edit).editorContent = st.previewDomText ∧
     (switchEditorTab ext st .edit).previewSyncPending = false ∧
     (switchEditorTab ext st .edit).previewEditing = false ∧
     (switchEditorTab ext st .edit).currentEditMode = .edit) ∧
    ((switchEditorTab ext st .split).editorContent = st.editorContent ∧
     (switchEditorTab ext st .split).previewSyncPending = st.previewSyncPending ∧
     (switchEditorTab ext st .split).previewDomText = ext.render st.editorContent) := by
  constructor
  · refine ⟨?_, ?_, ?_, ?_⟩ <;>
      simp [switchEditorTab, syncPreviewToEditor, hED, hpe, hpend]
  · refine ⟨?_, ?_, ?_⟩ <;>
      simp [switchEditorTab, updatePreview, hpend]

/-- Witness for C4 (amended) at the concrete C4 state: switching to
`edit` flushes "edited" into the editor and cancels the timer. -/
theorem switchEditorTab_flush_only_edit_witness :
    stC4.previewEditing = true ∧
    (((switchEditorTab extId stC4 .edit).editorContent = stC4.previewDomText ∧
      (switchEditorTab extId stC4 .edit).previewSyncPending = false ∧
      (switchEditorTab extId stC4 .edit).previewEditing = false ∧
      (switchEditorTab extId stC4 .edit).currentEditMode = .edit) ∧
     ((switchEditorTab extId stC4 .split).editorContent = stC4.editorContent ∧
      (switchEditorTab extId stC4 .split).previewSyncPending = stC4.previewSyncPending ∧
      (switchEditorTab extId stC4 .split).previewDomText =
        extId.render stC4.editorContent)) :=
  ⟨rfl, switchEditorTab_flush_only_edit extId stC4 rfl rfl rfl⟩

theorem openNote_trace (ext : Ext) (st : HLState) (i : Nat) :
    (openNote ext st i).2 = [] ∨ (openNote ext st i).2 = [Ev.opened i] := by
  unfold openNote
  cases h : findNote st.notes i <;> simp

theorem reconciled_not_mem_openNote (ext : Ext) (st : HLState) (i n : Nat) :
    Ev.reconciled n ∉ (openNote ext st i).2 := by
  rcases openNote_trace ext st i with h | h <;> simp [h]

/-- C5 (counterexample): the claim says reconciliation runs at every
checkpoint in every configuration, including before closing the last
remaining tab of a highlight-bearing note; but with auto-save disabled,
closing the last tab of the current highlight-bearing note performs no
reconciliation at all — the trace is empty (no `reconciled`, no
`persisted` event) and the stored span keeps its stale offsets (3,6)
although the live marker reported (6,9). -/
theorem closeTab_no_reconcile_cex :
    stC5.autoSave = false ∧
    stC5.currentNoteId = some 1 ∧
    stC5.openTabs = [1] ∧
    findNote stC5.notes 1 = some noteC5 ∧
    noteC5.highlights = some
      [{ fromIdx := 3, toIdx := 6, text := "XYZ".toList,
         previewText := "XYZ".toList, color := "#ffe26a" }] ∧
    stC5.activeHighlightMarkers = [{ range := some (6, 9), idx := 0 }] ∧
    (closeTab extId stC5 1).2 = [] ∧
    findNote (closeTab extId stC5 1).1.notes 1 = some noteC5 := by
  refine ⟨rfl, rfl, rfl, by decide, rfl, rfl, by decide, by decide⟩

/-- C5 (amended): reconciliation is invoked before switching the open
note to a different note (it is the first thing the switch does, in
both the auto-save and the no-auto-save configuration) and before
persistence of the current note (`saveCurrentNote` reconciles, then
persists); on closing a tab, however, it is invoked exactly when the
closed tab is the current note, auto-save is enabled, there are
unsaved changes, and the note exists — in any other configuration
(e.g. auto-save disabled) closing the last remaining tab of a
highlight-bearing note does not reconcile. -/
theorem reconcile_checkpoints_amended (ext : Ext) :
    (∀ st noteId cur note, st.currentNoteId = some cur →
      ¬(st.currentNoteId = some noteId) → findNote st.notes cur = some note →
      ∃ evs, (switchToTab ext st noteId).2 = Ev.reconciled cur :: evs) ∧
    (∀ st nid note, st.currentNoteId = some nid →
      findNote st.notes nid = some note →
      (saveCurrentNote st).2 = [Ev.reconciled nid, Ev.persisted nid]) ∧
    (∀ st noteId, (∃ n, Ev.reconciled n ∈ (closeTab ext st noteId).2) ↔
      (st.currentNoteId = some noteId ∧ st.autoSave = true ∧
        st.hasUnsavedChanges = true ∧
        ∃ note, findNote st.notes noteId = some note)) := by
  refine ⟨?_, ?_, ?_⟩
  · intro st noteId cur note hcur hne hfind
    unfold switchToTab
    rw [if_neg hne]
    by_cases ha : st.autoSave = true
    · have hs : (saveCurrentNote st).2 = [Ev.reconciled cur, Ev.persisted cur] := by
        simp [saveCurrentNote, hcur, hfind]
      exact ⟨Ev.persisted cur :: (openNote ext (saveCurrentNote st).1 noteId).2,
        by simp [hcur, ha, hs]⟩
    · exact ⟨(openNote ext ({ st with
          notes := updateNote st.notes cur (fun _ =>
            syncHighlightPositionsFromMarkers st.editorPresent
              st.activeHighlightMarkers note) }) noteId).2,
        by simp [hcur, ha, hfind]⟩
  · intro st nid note hcur hfind
    simp [saveCurrentNote, hcur, hfind]
  · intro st noteId
    by_cases h1 : st.currentNoteId = some noteId
    · by_cases h2 : st.autoSave = true
      · by_cases h3 : st.hasUnsavedChanges = true
        · cases hfind : findNote st.notes noteId with
          | none =>
            have hsave : saveCurrentNote st = (st, []) := by
              simp [saveCurrentNote, h1, hfind]
            constructor
            · rintro ⟨n, hn⟩
              exfalso
              unfold closeTab at hn
              rw [if_pos (by simp [h1, h2, h3]), hsave] at hn
              rcases hidx : st.openTabs.indexOf? noteId with _ | tabIndex <;>
                simp only [hidx] at hn
              · simp at hn
              · split at hn
                all_goals try split at hn
                all_goals simp_all [reconciled_not_mem_openNote]
            · rintro ⟨_, _, _, note, hsome⟩
              simp_all
          | some note =>
            have hsave : (saveCurrentNote st).2 =
                [Ev.reconciled noteId, Ev.persisted noteId] := by
              simp [saveCurrentNote, h1, hfind]
            constructor
            · intro _
              exact ⟨h1, h2, h3, ⟨note, rfl⟩⟩
            · intro _
              refine ⟨noteId, ?_⟩
              unfold closeTab
              rw [if_pos (by simp [h1, h2, h3])]
              rcases hidx : (saveCurrentNote st).1.openTabs.indexOf? noteId with
                _ | tabIndex <;> simp only [hidx]
              · simp [hsave]
              · split
                all_goals try split
                all_goals simp [hsave]
        · constructor
          · rintro ⟨n, hn⟩
            exfalso
            unfold closeTab at hn
            rw [if_neg (by simp [h3])] at hn
            rcases hidx : st.openTabs.indexOf? noteId with _ | tabIndex <;>
              simp only [hidx] at hn
            · simp at hn
            · split at hn
              all_goals try split at hn
              all_goals simp_all [reconciled_not_mem_openNote]
          · rintro ⟨_, _, h3', _⟩
            exact (h3 h3').elim
      · constructor
        · rintro ⟨n, hn⟩
          exfalso
          unfold closeTab at hn
          rw [if_neg (by simp [h2])] at hn
          rcases hidx : st.openTabs.indexOf? noteId with _ | tabIndex <;>
            simp only [hidx] at hn
          · simp at hn
          · split at hn
            all_goals try split at hn
            all_goals simp_all [reconciled_not_mem_openNote]
        · rintro ⟨_, h2', _, _⟩
          exact (h2 h2').elim
    · constructor
      · rintro ⟨n, hn⟩
        exfalso
        unfold closeTab at hn
        rw [if_neg (by simp [h1])] at hn
        rcases hidx : st.openTabs.indexOf? noteId with _ | tabIndex <;>
          simp only [hidx] at hn
        · simp at hn
        · split at hn
          all_goals try split at hn
          all_goals simp_all [reconciled_not_mem_openNote]
      · rintro ⟨h1', _, _, _⟩
        exact (h1 h1').elim

/-- Witness for C5 (amended) at a concrete state: switching away from
an open note with auto-save disabled still reconciles first. -/
theorem reconcile_checkpoints_amended_witness :
    findNote stC5.notes 1 = some noteC5 ∧
    ∃ evs, (switchToTab extId stC5 2).2 = Ev.reconciled 1 :: evs :=
  ⟨by decide,
    (reconcile_checkpoints_amended extId).1 stC5 2 1 noteC5 rfl (by decide) (by decide)⟩

end Storyroot
